import Mathlib

/-!
Shallow embedding of the `fsanano/go-test` shop backend.

The purchase engine lives in `internal/service` (`ShopService.BuyItem`),
the ledger store in `internal/repository` (`ShopRepository`:
`RunAtomic`, `GetItemForUpdate`, `GetUserForUpdate`, `UpdateItemStock`,
`UpdateUserBalance`, `CreateOrder`), the HTTP gateway in
`internal/handler` (`ShopHandler.BuyItem`), and the price-aggregation
client in `internal/service/skinport` (`Client.GetAllItems`).

The database state (tables `users`, `items`, `orders`) is modelled as
lists of rows; monetary values (DECIMAL(10,2) columns) are modelled as
exact rationals, except where a claim is specifically about the Go
code's use of binary floating point, which is modelled separately by
`Shop.F64`.  Storage-level failures of the individual pgx calls are
modelled by a vector of fault flags, one per repository call; row-level
`FOR UPDATE` locking is modelled by an event trace recording the order
in which the transaction begins, locks rows, and writes.
-/

namespace Shop

/-- Typed failure outcomes of the purchase engine.  The Go code returns
`errors.New` values with the corresponding messages; `storage` stands
for any wrapped pgx/storage error (begin, query, exec or commit
failure). -/
inductive Err where
  | invalidQuantity
  | itemNotFound
  | userNotFound
  | insufficientStock
  | insufficientFunds
  | storage
deriving DecidableEq, Repr

/-- Observable store interactions of one `BuyItem` call: transaction
begin/commit, row locks acquired by the two `SELECT ... FOR UPDATE`
queries, and the three writes. -/
inductive Event where
  | beginTx
  | lockItem (id : Int)
  | lockUser (id : Int)
  | writeBalance
  | writeStock
  | insertOrder
  | commitTx
deriving DecidableEq, Repr

/-- A row of the `users` table (columns relevant to the engine:
`id`, `balance`). -/
structure Account where
  id : Int
  balance : ℚ
deriving DecidableEq, Repr

/-- A row of the `items` table (`id`, `price`, `stock`). -/
structure Item where
  id : Int
  price : ℚ
  stock : Int
deriving DecidableEq, Repr

/-- A row of the `orders` table (`user_id`, `item_id`, `price`,
`quantity`; `id` and `created_at` are database-generated and not
modelled). -/
structure Order where
  userId : Int
  itemId : Int
  price : ℚ
  quantity : Int
deriving DecidableEq, Repr

/-- The committed database state. -/
structure State where
  users : List Account
  items : List Item
  orders : List Order
deriving DecidableEq, Repr

/-- Fault injection for the storage layer: each flag makes the
corresponding pgx call of one `BuyItem` attempt fail with a storage
error. -/
structure Faults where
  beginTx : Bool
  getItem : Bool
  getUser : Bool
  updBalance : Bool
  updStock : Bool
  createOrder : Bool
  commitTx : Bool
deriving DecidableEq, Repr

/-- The fault-free storage layer. -/
def noFaults : Faults :=
  ⟨false, false, false, false, false, false, false⟩

/-- `GetItemForUpdate` (repository): `SELECT price, stock FROM items
WHERE id = $1 FOR UPDATE`; `pgx.ErrNoRows` becomes "item not found".
Returns the price and stock of the first row with the given id. -/
def GetItemForUpdate (s : State) (itemID : Int) : Option (ℚ × Int) :=
  (s.items.find? (fun it => it.id = itemID)).map (fun it => (it.price, it.stock))

/-- `GetUserForUpdate` (repository): `SELECT balance FROM users WHERE
id = $1 FOR UPDATE`; `pgx.ErrNoRows` becomes "user not found". -/
def GetUserForUpdate (s : State) (userID : Int) : Option ℚ :=
  (s.users.find? (fun u => u.id = userID)).map (fun u => u.balance)

/-- `UpdateItemStock` (repository): `UPDATE items SET stock = stock -
$1 WHERE id = $2`. -/
def UpdateItemStock (s : State) (itemID : Int) (quantity : Int) : State :=
  { s with items := s.items.map (fun it =>
      if it.id = itemID then { it with stock := it.stock - quantity } else it) }

/-- `UpdateUserBalance` (repository): `UPDATE users SET balance =
balance - $1 WHERE id = $2`. -/
def UpdateUserBalance (s : State) (userID : Int) (amount : ℚ) : State :=
  { s with users := s.users.map (fun u =>
      if u.id = userID then { u with balance := u.balance - amount } else u) }

/-- `CreateOrder` (repository): `INSERT INTO orders (user_id, item_id,
price, quantity) VALUES ($1, $2, $3, $4)`. -/
def CreateOrder (s : State) (userID itemID : Int) (price : ℚ) (quantity : Int) : State :=
  { s with orders := s.orders ++ [⟨userID, itemID, price, quantity⟩] }

/-- `RunAtomic` (repository): begins a transaction, runs the body, and
commits on success; `defer tx.Rollback` discards all uncommitted
effects on any failure, so an erring run surfaces only the error and
the committed state stays what it was.  The body returns the
transaction-local state it built together with its event trace. -/
def RunAtomic (f : Faults) (body : Except Err State × List Event) :
    Except Err State × List Event :=
  if f.beginTx then (.error .storage, [])
  else
    match body with
    | (.error e, tr) => (.error e, Event.beginTx :: tr)
    | (.ok s', tr) =>
      if f.commitTx then (.error .storage, Event.beginTx :: tr)
      else (.ok s', Event.beginTx :: (tr ++ [Event.commitTx]))

/-- The closure `ShopService.BuyItem` passes to `RunAtomic`: lock and
read the item, check stock, lock and read the user, check funds against
`totalPrice = price * quantity`, then debit the balance, decrement the
stock and insert the order.  Returns the transaction-local state it
built (or the failure of the first failing step) together with the
trace of store interactions. -/
def BuyItemTx (f : Faults) (s : State) (userID itemID quantity : Int) :
    Except Err State × List Event :=
  if f.getItem then (.error .storage, [])
  else
    match GetItemForUpdate s itemID with
    | none => (.error .itemNotFound, [])
    | some (price, stock) =>
      if stock < quantity then (.error .insufficientStock, [Event.lockItem itemID])
      else if f.getUser then (.error .storage, [Event.lockItem itemID])
      else
        match GetUserForUpdate s userID with
        | none => (.error .userNotFound, [Event.lockItem itemID])
        | some balance =>
          let totalPrice := price * (quantity : ℚ)
          if balance < totalPrice then
            (.error .insufficientFunds, [Event.lockItem itemID, Event.lockUser userID])
          else if f.updBalance then
            (.error .storage, [Event.lockItem itemID, Event.lockUser userID])
          else
            let s1 := UpdateUserBalance s userID totalPrice
            if f.updStock then
              (.error .storage,
               [Event.lockItem itemID, Event.lockUser userID, Event.writeBalance])
            else
              let s2 := UpdateItemStock s1 itemID quantity
              if f.createOrder then
                (.error .storage,
                 [Event.lockItem itemID, Event.lockUser userID, Event.writeBalance,
                  Event.writeStock])
              else
                (.ok (CreateOrder s2 userID itemID totalPrice quantity),
                 [Event.lockItem itemID, Event.lockUser userID, Event.writeBalance,
                  Event.writeStock, Event.insertOrder])

/-- `ShopService.BuyItem`: validates the quantity, then runs the
purchase closure inside `RunAtomic`. -/
def BuyItem (f : Faults) (s : State) (userID itemID quantity : Int) :
    Except Err State × List Event :=
  if quantity ≤ 0 then (.error .invalidQuantity, [])
  else RunAtomic f (BuyItemTx f s userID itemID quantity)

/-- The committed state after one `BuyItem` call: the new state on
success, the unchanged previous state on any failure (the
coordinator's rollback). -/
def buyExec (f : Faults) (s : State) (userID itemID quantity : Int) : State :=
  match (BuyItem f s userID itemID quantity).1 with
  | .ok s' => s'
  | .error _ => s

/-- Committed state after a sequence of `BuyItem` calls, each with its
own fault vector and arguments `(userID, itemID, quantity)`. -/
def runOps (s : State) (ops : List (Faults × Int × Int × Int)) : State :=
  ops.foldl (fun st op => buyExec op.1 st op.2.1 op.2.2.1 op.2.2.2) s

/-- Runs a list of fault-free `BuyItem` attempts `(userID, itemID,
quantity)` in order (the serialization that the `FOR UPDATE` row locks
enforce on concurrent attempts), returning the final committed state
and, per attempt, `none` for success or the failure. -/
def runBuys (s : State) : List (Int × Int × Int) → State × List (Option Err)
  | [] => (s, [])
  | (u, i, q) :: rest =>
    match (BuyItem noFaults s u i q).1 with
    | .ok s' =>
      let r := runBuys s' rest
      (r.1, none :: r.2)
    | .error e =>
      let r := runBuys s rest
      (r.1, some e :: r.2)

/-- All balances and all stocks are non-negative. -/
def Nonneg (s : State) : Prop :=
  (∀ u ∈ s.users, 0 ≤ u.balance) ∧ (∀ it ∈ s.items, 0 ≤ it.stock)

/-- Well-formedness from the schema's primary keys: row ids are unique
within `users` and within `items`. -/
def WF (s : State) : Prop :=
  (s.users.map Account.id).Nodup ∧ (s.items.map Item.id).Nodup

instance (s : State) : Decidable (Nonneg s) := by
  unfold Nonneg; infer_instance

instance (s : State) : Decidable (WF s) := by
  unfold WF; infer_instance

/-- The full store-interaction trace of a successful purchase; every
`BuyItem` trace is a prefix of it, which in particular puts the item
row lock before the user row lock on every path. -/
def canonicalTrace (userID itemID : Int) : List Event :=
  [Event.beginTx, Event.lockItem itemID, Event.lockUser userID,
   Event.writeBalance, Event.writeStock, Event.insertOrder, Event.commitTx]

/-- Modelled from the spec, section 4.3: the outcome dictated by the
protocol steps in their fixed order (item lookup, stock check, user
lookup, funds check, then the three writes), for a fault-free store.
Used to check that `BuyItem` returns the failure of the earliest
failing step. -/
def specProtocolOutcome (s : State) (userID itemID quantity : Int) : Except Err State :=
  match GetItemForUpdate s itemID with
  | none => .error .itemNotFound
  | some (price, stock) =>
    if stock < quantity then .error .insufficientStock
    else
      match GetUserForUpdate s userID with
      | none => .error .userNotFound
      | some balance =>
        if balance < price * (quantity : ℚ) then .error .insufficientFunds
        else
          .ok (CreateOrder (UpdateItemStock (UpdateUserBalance s userID
                 (price * (quantity : ℚ))) itemID quantity)
               userID itemID (price * (quantity : ℚ)) quantity)

end Shop

namespace handler

/-- The decoded JSON body of `POST /buy` (`BuyRequest` in
`internal/handler`); a `count` field omitted from the JSON decodes to
the zero value `0`. -/
structure BuyRequest where
  user_id : Int
  item_id : Int
  count : Int
deriving DecidableEq, Repr

/-- The gateway's quantity defaulting (`ShopHandler.BuyItem`):
`quantity := req.Count; if quantity <= 0 { quantity = 1 }`. -/
def handlerQuantity (count : Int) : Int :=
  if count ≤ 0 then 1 else count

/-- `ShopHandler.BuyItem` after a successful body decode: invokes the
service with the defaulted quantity. -/
def HandlerBuyItem (f : Shop.Faults) (s : Shop.State) (req : BuyRequest) :
    Except Shop.Err Shop.State × List Shop.Event :=
  Shop.BuyItem f s req.user_id req.item_id (handlerQuantity req.count)

end handler

namespace Shop

/-- A finite IEEE-754 binary64 value (Go `float64`) as the exact dyadic
rational `m * 2 ^ e`.  The service computes `totalPrice := price *
float64(quantity)` in this type; the exponent range is not modelled
(all values arising here are normal and far from overflow). -/
structure F64 where
  m : Int
  e : Int
deriving DecidableEq, Repr

/-- The exact rational value of a binary64 datum. -/
def F64.toRat (x : F64) : ℚ :=
  if 0 ≤ x.e then (x.m : ℚ) * (2 : ℚ) ^ x.e.toNat
  else (x.m : ℚ) / (2 : ℚ) ^ (-x.e).toNat

/-- Fuel-bounded bit length: `bitsAux fuel n` is the number of binary
digits of `n` for `n < 2 ^ fuel` (structural recursion so that proofs
can evaluate it). -/
def bitsAux : Nat → Nat → Nat
  | 0, _ => 0
  | fuel + 1, n => if n = 0 then 0 else bitsAux fuel (n / 2) + 1

/-- Number of binary digits of a 128-bit-bounded natural (any product
of two binary64 significands fits). -/
def bitLen (n : Nat) : Nat :=
  bitsAux 128 n

/-- Round the exact dyadic `m * 2 ^ e` to 53 significant bits, to
nearest, ties to even: the binary64 rounding Go applies to every
floating-point operation result. -/
def F64.round (m : Int) (e : Int) : F64 :=
  if m.natAbs < 2 ^ 53 then ⟨m, e⟩
  else
    let n := m.natAbs
    let k := bitLen n - 53
    let d : ℕ := 2 ^ k
    let q := n / d
    let r := n % d
    let half : ℕ := 2 ^ (k - 1)
    let q' := if half < r ∨ (r = half ∧ q % 2 = 1) then q + 1 else q
    ⟨if m < 0 then -(q' : Int) else (q' : Int), e + (k : Int)⟩

/-- Binary64 multiplication: the exact product, rounded. -/
def F64.mul (x y : F64) : F64 :=
  F64.round (x.m * y.m) (x.e + y.e)

/-- Go's `float64(n)` conversion of an integer (exact for the small
quantities at hand, rounded in general). -/
def F64.ofInt (n : Int) : F64 :=
  F64.round n 0

/-- `totalPrice := price * float64(quantity)` (the service's step 4)
under binary64 semantics. -/
def totalPriceF64 (price : F64) (quantity : Int) : F64 :=
  price.mul (F64.ofInt quantity)

/-- The binary64 value nearest to the decimal price 0.10: what the Go
code holds after scanning a `DECIMAL(10,2)` price of `0.10` into a
`float64`. -/
def price010 : F64 :=
  ⟨3602879701896397, -55⟩

end Shop

namespace skinport

/-- An item of the Skinport `/items` response (`RawItem` in
`internal/service/skinport/types.go`); `min_price` may be JSON `null`. -/
structure RawItem where
  marketHashName : String
  currency : String
  slug : String
  minPrice : Option ℚ
  quantity : Int
deriving DecidableEq, Repr

/-- The merged per-name result entry (`ResponseItem`); a `none` price
pointer is the Go `nil`. -/
structure ResponseItem where
  marketHashName : String
  currency : String
  slug : String
  minPriceTradable : Option ℚ
  minPriceNonTradable : Option ℚ
  quantity : Int
deriving DecidableEq, Repr

/-- One step of `GetAllItems`'s first merge loop: `itemMap[name] =
&ResponseItem{... MinPriceTradable: item.MinPrice, Quantity:
item.Quantity}` (insert or overwrite).  The Go map keyed by
`MarketHashName` is modelled as a function from names to optional
entries. -/
def insTradable (m : String → Option ResponseItem) (it : RawItem) :
    String → Option ResponseItem :=
  fun n =>
    if n = it.marketHashName then
      some ⟨it.marketHashName, it.currency, it.slug, it.minPrice, none, it.quantity⟩
    else m n

/-- One step of the second merge loop: if the name exists, set
`MinPriceNonTradable` and add the quantity to the existing entry;
otherwise insert a fresh entry with only the non-tradable price. -/
def insNonTradable (m : String → Option ResponseItem) (it : RawItem) :
    String → Option ResponseItem :=
  match m it.marketHashName with
  | some ex =>
    fun n =>
      if n = it.marketHashName then
        some { ex with minPriceNonTradable := it.minPrice,
                       quantity := ex.quantity + it.quantity }
      else m n
  | none =>
    fun n =>
      if n = it.marketHashName then
        some ⟨it.marketHashName, it.currency, it.slug, none, it.minPrice, it.quantity⟩
      else m n

/-- The merge core of `Client.GetAllItems`: fold the tradable fetch
result, then the non-tradable one, into the name-keyed map.  The Go
function finally lists this map's entries (in Go's unspecified map
iteration order) as the returned slice, so the returned entries are
exactly the values of this map; fetching, caching and HTTP transport
are not modelled. -/
def itemMapOf (tradable nonTradable : List RawItem) :
    String → Option ResponseItem :=
  nonTradable.foldl insNonTradable (tradable.foldl insTradable (fun _ => none))

end skinport

namespace Shop

/-- The spec's worked example state (section 8): one account with
balance 100.00, one item with price 10.00 and stock 5, no orders. -/
def sampleState : State :=
  ⟨[⟨1, 100⟩], [⟨1, 10, 5⟩], []⟩

/-- A contention scenario: two funded accounts, one item with a single
unit of stock. -/
def sampleState2 : State :=
  ⟨[⟨1, 100⟩, ⟨2, 100⟩], [⟨1, 10, 1⟩], []⟩

end Shop

namespace skinport

/-- Concrete fetched lists mirroring the repository's client test:
"Item A" on both sides, "Item B" only tradable, "Item C" only
non-tradable. -/
def sampleTradable : List RawItem :=
  [⟨"Item A", "EUR", "item-a", some (21/2 : ℚ), 5⟩,
   ⟨"Item B", "EUR", "item-b", some 20, 1⟩]

/-- The matching non-tradable fetched list. -/
def sampleNonTradable : List RawItem :=
  [⟨"Item A", "EUR", "item-a", some 9, 2⟩,
   ⟨"Item C", "EUR", "item-c", some 30, 3⟩]

end skinport

namespace Shop

theorem UpdateUserBalance_items (s : State) (u : Int) (amt : ℚ) :
    (UpdateUserBalance s u amt).items = s.items := rfl

theorem UpdateUserBalance_orders (s : State) (u : Int) (amt : ℚ) :
    (UpdateUserBalance s u amt).orders = s.orders := rfl

theorem UpdateItemStock_users (s : State) (i q : Int) :
    (UpdateItemStock s i q).users = s.users := rfl

theorem UpdateItemStock_orders (s : State) (i q : Int) :
    (UpdateItemStock s i q).orders = s.orders := rfl

theorem CreateOrder_users (s : State) (u i : Int) (p : ℚ) (q : Int) :
    (CreateOrder s u i p q).users = s.users := rfl

theorem CreateOrder_items (s : State) (u i : Int) (p : ℚ) (q : Int) :
    (CreateOrder s u i p q).items = s.items := rfl

theorem CreateOrder_orders (s : State) (u i : Int) (p : ℚ) (q : Int) :
    (CreateOrder s u i p q).orders = s.orders ++ [⟨u, i, p, q⟩] := rfl

/-- `find?` by id commutes with mapping an id-preserving function. -/
theorem find?_map_of_id_eq {α : Type} (key : α → Int) (g : α → α)
    (hg : ∀ x, key (g x) = key x) (l : List α) (a : Int) :
    (l.map g).find? (fun x => key x = a) =
      (l.find? (fun x => key x = a)).map g := by
  induction l with
  | nil => simp
  | cons x xs ih =>
    simp only [List.map_cons, List.find?_cons]
    by_cases hx : key x = a
    · simp [hg, hx]
    · simp [hg, hx, ih]

/-- Reading a balance after `UpdateUserBalance`: the debited account's
first row decreases by the amount, every other account reads
unchanged. -/
theorem GetUserForUpdate_UpdateUserBalance (s : State) (u : Int) (amt : ℚ) (a : Int) :
    GetUserForUpdate (UpdateUserBalance s u amt) a =
      if a = u then (GetUserForUpdate s a).map (fun b => b - amt)
      else GetUserForUpdate s a := by
  unfold GetUserForUpdate UpdateUserBalance
  rw [show (({ s with users := s.users.map (fun x =>
        if x.id = u then { x with balance := x.balance - amt } else x) } : State).users)
      = s.users.map (fun x =>
        if x.id = u then { x with balance := x.balance - amt } else x) from rfl]
  rw [find?_map_of_id_eq Account.id _ (fun x => by split <;> rfl)]
  cases hf : s.users.find? (fun x => x.id = a) with
  | none => simp
  | some x =>
    have hxa : x.id = a := by
      have := List.find?_some hf
      simpa using this
    by_cases hau : a = u
    · simp [hxa, hau]
    · simp [Option.map_map, hxa, hau]

/-- Reading an item after `UpdateItemStock`: the decremented item's
first row loses `q` stock at unchanged price, every other item reads
unchanged. -/
theorem GetItemForUpdate_UpdateItemStock (s : State) (i q : Int) (j : Int) :
    GetItemForUpdate (UpdateItemStock s i q) j =
      if j = i then (GetItemForUpdate s j).map (fun pq => (pq.1, pq.2 - q))
      else GetItemForUpdate s j := by
  unfold GetItemForUpdate UpdateItemStock
  rw [show (({ s with items := s.items.map (fun x =>
        if x.id = i then { x with stock := x.stock - q } else x) } : State).items)
      = s.items.map (fun x =>
        if x.id = i then { x with stock := x.stock - q } else x) from rfl]
  rw [find?_map_of_id_eq Item.id _ (fun x => by split <;> rfl)]
  cases hf : s.items.find? (fun x => x.id = j) with
  | none => simp
  | some x =>
    have hxj : x.id = j := by
      have := List.find?_some hf
      simpa using this
    by_cases hji : j = i
    · simp [hxj, hji]
    · simp [Option.map_map, hxj, hji]

theorem GetUserForUpdate_CreateOrder (s : State) (u i : Int) (p : ℚ) (q a : Int) :
    GetUserForUpdate (CreateOrder s u i p q) a = GetUserForUpdate s a := rfl

theorem GetItemForUpdate_CreateOrder (s : State) (u i : Int) (p : ℚ) (q j : Int) :
    GetItemForUpdate (CreateOrder s u i p q) j = GetItemForUpdate s j := rfl

theorem GetUserForUpdate_UpdateItemStock (s : State) (i q a : Int) :
    GetUserForUpdate (UpdateItemStock s i q) a = GetUserForUpdate s a := rfl

theorem GetItemForUpdate_UpdateUserBalance (s : State) (u : Int) (amt : ℚ) (j : Int) :
    GetItemForUpdate (UpdateUserBalance s u amt) j = GetItemForUpdate s j := rfl

/-- Inversion for a transaction body that returned its built state:
every check passed and the state is the three mutations applied in
order. -/
theorem BuyItemTx_ok_elim {f : Faults} {s : State} {u i q : Int}
    {sb : State} {tr : List Event}
    (h : BuyItemTx f s u i q = (.ok sb, tr)) :
    ∃ p st b, GetItemForUpdate s i = some (p, st) ∧ ¬ st < q ∧
      GetUserForUpdate s u = some b ∧ ¬ b < p * (q : ℚ) ∧
      sb = CreateOrder (UpdateItemStock (UpdateUserBalance s u (p * (q : ℚ))) i q) u i
             (p * (q : ℚ)) q ∧
      tr = [Event.lockItem i, Event.lockUser u, Event.writeBalance,
            Event.writeStock, Event.insertOrder] := by
  unfold BuyItemTx at h
  by_cases hgi : f.getItem
  · simp [hgi] at h
  cases heq : GetItemForUpdate s i with
  | none => simp [hgi, heq] at h
  | some pst =>
    obtain ⟨p, st⟩ := pst
    by_cases hst : st < q
    · simp [hgi, heq, hst] at h
    by_cases hgu : f.getUser
    · simp [hgi, heq, hst, hgu] at h
    cases heqb : GetUserForUpdate s u with
    | none => simp [hgi, heq, hst, hgu, heqb] at h
    | some b =>
      by_cases hfund : b < p * (q : ℚ)
      · simp [hgi, heq, hst, hgu, heqb, hfund] at h
      by_cases h1 : f.updBalance
      · simp [hgi, heq, hst, hgu, heqb, hfund, h1] at h
      by_cases h2 : f.updStock
      · simp [hgi, heq, hst, hgu, heqb, hfund, h1, h2] at h
      by_cases h3 : f.createOrder
      · simp [hgi, heq, hst, hgu, heqb, hfund, h1, h2, h3] at h
      simp only [hgi, heq, hst, hgu, heqb, hfund, h1, h2, h3, if_false, if_neg,
        Bool.false_eq_true, Prod.mk.injEq, Except.ok.injEq] at h
      exact ⟨p, st, b, rfl, hst, rfl, hfund, h.1.symm, h.2.symm⟩

/-- Inversion for a successful `BuyItem` call: the quantity was
positive, the item and user were found, the stock and funds checks
passed, and the committed state is exactly the three mutations. -/
theorem BuyItem_ok_elim {f : Faults} {s : State} {u i q : Int} {s' : State}
    (h : (BuyItem f s u i q).1 = .ok s') :
    0 < q ∧ ∃ p st b, GetItemForUpdate s i = some (p, st) ∧ q ≤ st ∧
      GetUserForUpdate s u = some b ∧ p * (q : ℚ) ≤ b ∧
      s' = CreateOrder (UpdateItemStock (UpdateUserBalance s u (p * (q : ℚ))) i q) u i
             (p * (q : ℚ)) q := by
  unfold BuyItem at h
  by_cases hq : q ≤ 0
  · rw [if_pos hq] at h
    simp at h
  · rw [if_neg hq] at h
    unfold RunAtomic at h
    split at h
    · simp at h
    · cases hb : BuyItemTx f s u i q with
      | mk r tr =>
        rw [hb] at h
        cases r with
        | error e => simp at h
        | ok sb =>
          by_cases hcm : f.commitTx
          · simp [hcm] at h
          · obtain ⟨p, st, b, h1, h2, h3, h4, h5, _⟩ := BuyItemTx_ok_elim hb
            have hsb : sb = s' := by simpa [hcm] using h
            refine ⟨by omega, p, st, b, h1, by omega, h3, not_lt.mp h4, ?_⟩
            rw [← hsb, h5]

/-- With a fault-free store and a positive quantity, `BuyItem` returns
exactly the outcome of the spec's step-ordered protocol. -/
theorem BuyItem_noFaults_eval (s : State) (u i q : Int) (hq : 0 < q) :
    (BuyItem noFaults s u i q).1 = specProtocolOutcome s u i q := by
  unfold BuyItem RunAtomic BuyItemTx specProtocolOutcome noFaults
  rw [if_neg (by omega : ¬ q ≤ 0)]
  cases heq : GetItemForUpdate s i with
  | none => simp [heq]
  | some pst =>
    obtain ⟨p, st⟩ := pst
    by_cases hst : st < q
    · simp [heq, hst]
    cases heqb : GetUserForUpdate s u with
    | none => simp [heq, hst, heqb]
    | some b =>
      by_cases hfund : b < p * (q : ℚ)
      · simp [heq, hst, heqb, hfund]
      · simp [heq, hst, heqb, hfund]

/-- The transaction body's trace is always a prefix of its full
success trace. -/
theorem BuyItemTx_trace (f : Faults) (s : State) (u i q : Int) :
    ∃ rest, (BuyItemTx f s u i q).2 ++ rest =
      [Event.lockItem i, Event.lockUser u, Event.writeBalance,
       Event.writeStock, Event.insertOrder] := by
  unfold BuyItemTx
  by_cases hgi : f.getItem
  · simp only [hgi, if_true]
    exact ⟨_, rfl⟩
  rw [if_neg hgi]
  cases heq : GetItemForUpdate s i with
  | none => exact ⟨_, rfl⟩
  | some pst =>
    obtain ⟨p, st⟩ := pst
    by_cases hst : st < q
    · simp only [hst, if_true]
      exact ⟨_, rfl⟩
    simp only [hst, if_false]
    by_cases hgu : f.getUser
    · simp only [hgu, if_true]
      exact ⟨_, rfl⟩
    simp only [hgu, if_false]
    cases heqb : GetUserForUpdate s u with
    | none => exact ⟨_, rfl⟩
    | some b =>
      by_cases hfund : b < p * (q : ℚ)
      · simp only [hfund, if_true]
        exact ⟨_, rfl⟩
      simp only [hfund, if_false]
      by_cases h1 : f.updBalance
      · simp only [h1, if_true]
        exact ⟨_, rfl⟩
      simp only [h1, if_false]
      by_cases h2 : f.updStock
      · simp only [h2, if_true]
        exact ⟨_, rfl⟩
      simp only [h2, if_false]
      by_cases h3 : f.createOrder
      · simp only [h3, if_true]
        exact ⟨_, rfl⟩
      simp only [h3, if_false]
      exact ⟨_, rfl⟩

/-- The full `BuyItem` trace is always a prefix of the canonical
success trace; in particular any `lockUser` event is preceded by the
`lockItem` event. -/
theorem BuyItem_trace (f : Faults) (s : State) (u i q : Int) :
    ∃ rest, (BuyItem f s u i q).2 ++ rest = canonicalTrace u i := by
  unfold BuyItem
  by_cases hq : q ≤ 0
  · rw [if_pos hq]
    exact ⟨_, rfl⟩
  rw [if_neg hq]
  unfold RunAtomic
  by_cases hbg : f.beginTx
  · simp only [hbg, if_true]
    exact ⟨_, rfl⟩
  rw [if_neg hbg]
  obtain ⟨trest, htr⟩ := BuyItemTx_trace f s u i q
  cases hb : BuyItemTx f s u i q with
  | mk r tr =>
    rw [hb] at htr
    cases r with
    | error e =>
      refine ⟨trest ++ [Event.commitTx], ?_⟩
      show (Event.beginTx :: tr) ++ (trest ++ [Event.commitTx]) = canonicalTrace u i
      rw [canonicalTrace]
      simp only [List.cons_append, List.cons.injEq, true_and]
      rw [← List.append_assoc, htr]
      rfl
    | ok sb =>
      by_cases hcm : f.commitTx
      · refine ⟨trest ++ [Event.commitTx], ?_⟩
        show (if f.commitTx = true then (Except.error Err.storage, Event.beginTx :: tr)
              else (Except.ok sb, Event.beginTx :: (tr ++ [Event.commitTx]))).2 ++
            (trest ++ [Event.commitTx]) = canonicalTrace u i
        rw [if_pos hcm]
        show (Event.beginTx :: tr) ++ (trest ++ [Event.commitTx]) = canonicalTrace u i
        rw [canonicalTrace]
        simp only [List.cons_append, List.cons.injEq, true_and]
        rw [← List.append_assoc, htr]
        rfl
      · obtain ⟨p, st, b, _, _, _, _, _, h6⟩ := BuyItemTx_ok_elim hb
        refine ⟨[], ?_⟩
        show (if f.commitTx = true then (Except.error Err.storage, Event.beginTx :: tr)
              else (Except.ok sb, Event.beginTx :: (tr ++ [Event.commitTx]))).2 ++
            [] = canonicalTrace u i
        rw [if_neg hcm]
        show (Event.beginTx :: (tr ++ [Event.commitTx])) ++ [] = canonicalTrace u i
        rw [h6, canonicalTrace]
        rfl

/-- No branch of the transaction body produces the invalid-quantity
failure: that check lives before the transaction. -/
theorem BuyItemTx_no_invalidQuantity (f : Faults) (s : State) (u i q : Int) :
    (BuyItemTx f s u i q).1 ≠ .error .invalidQuantity := by
  unfold BuyItemTx
  by_cases hgi : f.getItem
  · simp [hgi]
  rw [if_neg hgi]
  cases heq : GetItemForUpdate s i with
  | none => simp
  | some pst =>
    obtain ⟨p, st⟩ := pst
    by_cases hst : st < q
    · simp [hst]
    simp only [hst, if_false]
    by_cases hgu : f.getUser
    · simp [hgu]
    simp only [hgu, if_false]
    cases heqb : GetUserForUpdate s u with
    | none => simp
    | some b =>
      by_cases hfund : b < p * (q : ℚ)
      · simp [hfund]
      simp only [hfund, if_false]
      by_cases h1 : f.updBalance
      · simp [h1]
      simp only [h1, if_false]
      by_cases h2 : f.updStock
      · simp [h2]
      simp only [h2, if_false]
      by_cases h3 : f.createOrder
      · simp [h3]
      simp only [h3, if_false]
      simp

/-- A `BuyItem` call with positive quantity never reports the
invalid-quantity failure. -/
theorem BuyItem_pos_no_invalidQuantity (f : Faults) (s : State) (u i q : Int)
    (hq : 0 < q) : (BuyItem f s u i q).1 ≠ .error .invalidQuantity := by
  unfold BuyItem RunAtomic
  rw [if_neg (by omega : ¬ q ≤ 0)]
  by_cases hbg : f.beginTx
  · simp [hbg]
  rw [if_neg hbg]
  cases hb : BuyItemTx f s u i q with
  | mk r tr =>
    cases r with
    | error e =>
      have hne := BuyItemTx_no_invalidQuantity f s u i q
      rw [hb] at hne
      simpa using hne
    | ok sb =>
      by_cases hcm : f.commitTx <;> simp [hcm]

/-- With unique keys, `find?` locates any member by its key. -/
theorem find?_mem_of_nodup {α κ : Type} [DecidableEq κ] (key : α → κ) (l : List α)
    (hnd : (l.map key).Nodup) (x : α) (hx : x ∈ l) (k : κ) (hk : key x = k) :
    l.find? (fun y => key y = k) = some x := by
  induction l with
  | nil => cases hx
  | cons a as ih =>
    have hnd' : (∀ y ∈ as, ¬ key y = key a) ∧ (as.map key).Nodup := by
      simpa using hnd
    rcases List.mem_cons.mp hx with rfl | hx'
    · rw [List.find?_cons]
      simp [hk]
    · have hne : ¬ (key a = k) := by
        intro hEq
        exact hnd'.1 x hx' (hk.trans hEq.symm)
      rw [List.find?_cons]
      have hd : decide (key a = k) = false := by
        simp [hne]
      rw [hd]
      exact ih hnd'.2 hx'

theorem UpdateUserBalance_users_ids (s : State) (u : Int) (amt : ℚ) :
    (UpdateUserBalance s u amt).users.map Account.id = s.users.map Account.id := by
  unfold UpdateUserBalance
  rw [List.map_map]
  apply List.map_congr_left
  intro x _
  simp only [Function.comp_apply]
  split <;> rfl

theorem UpdateItemStock_items_ids (s : State) (i q : Int) :
    (UpdateItemStock s i q).items.map Item.id = s.items.map Item.id := by
  unfold UpdateItemStock
  rw [List.map_map]
  apply List.map_congr_left
  intro x _
  simp only [Function.comp_apply]
  split <;> rfl

theorem runBuys_cons (s : State) (u i q : Int) (rest : List (Int × Int × Int)) :
    runBuys s ((u, i, q) :: rest) =
      match (BuyItem noFaults s u i q).1 with
      | .ok s' => ((runBuys s' rest).1, none :: (runBuys s' rest).2)
      | .error e => ((runBuys s rest).1, some e :: (runBuys s rest).2) := by
  conv_lhs => rw [runBuys]

/-- Primary-key well-formedness survives any committed `BuyItem`
outcome. -/
theorem WF_buyExec (f : Faults) (s : State) (u i q : Int) (hwf : WF s) :
    WF (buyExec f s u i q) := by
  cases hres : (BuyItem f s u i q).1 with
  | error e =>
    unfold buyExec
    rw [hres]
    exact hwf
  | ok s' =>
    have hbe : buyExec f s u i q = s' := by
      unfold buyExec
      rw [hres]
    rw [hbe]
    obtain ⟨hq, p, st, b, h1, h2, h3, h4, h5⟩ := BuyItem_ok_elim hres
    subst h5
    constructor
    · rw [CreateOrder_users, UpdateItemStock_users, UpdateUserBalance_users_ids]
      exact hwf.1
    · rw [CreateOrder_items, UpdateItemStock_items_ids]
      rw [show (UpdateUserBalance s u (p * (q : ℚ))).items = s.items from rfl]
      exact hwf.2

/-- One committed `BuyItem` outcome preserves non-negativity of every
balance and every stock (under primary-key uniqueness): a success only
subtracts amounts its own checks bounded, and a failure changes
nothing. -/
theorem Nonneg_buyExec (f : Faults) (s : State) (u i q : Int)
    (hwf : WF s) (hnn : Nonneg s) : Nonneg (buyExec f s u i q) := by
  cases hres : (BuyItem f s u i q).1 with
  | error e =>
    unfold buyExec
    rw [hres]
    exact hnn
  | ok s' =>
    have hbe : buyExec f s u i q = s' := by
      unfold buyExec
      rw [hres]
    rw [hbe]
    obtain ⟨hq, p, st, b, h1, h2, h3, h4, h5⟩ := BuyItem_ok_elim hres
    subst h5
    constructor
    · intro x hx
      rw [CreateOrder_users, UpdateItemStock_users] at hx
      unfold UpdateUserBalance at hx
      obtain ⟨y, hy, rfl⟩ := List.mem_map.mp hx
      by_cases hyu : y.id = u
      · have hfind : s.users.find? (fun z => z.id = u) = some y :=
          find?_mem_of_nodup Account.id s.users hwf.1 y hy u hyu
        have hb : b = y.balance := by
          unfold GetUserForUpdate at h3
          rw [hfind] at h3
          simpa using h3.symm
        rw [if_pos hyu]
        show 0 ≤ y.balance - p * (q : ℚ)
        have hle : p * (q : ℚ) ≤ y.balance := hb ▸ h4
        linarith
      · rw [if_neg hyu]
        exact hnn.1 y hy
    · intro x hx
      rw [CreateOrder_items] at hx
      unfold UpdateItemStock at hx
      rw [show (UpdateUserBalance s u (p * (q : ℚ))).items = s.items from rfl] at hx
      obtain ⟨y, hy, rfl⟩ := List.mem_map.mp hx
      by_cases hyi : y.id = i
      · have hfind : s.items.find? (fun z => z.id = i) = some y :=
          find?_mem_of_nodup Item.id s.items hwf.2 y hy i hyi
        have hps : y.price = p ∧ y.stock = st := by
          unfold GetItemForUpdate at h1
          rw [hfind] at h1
          simpa using h1
        have hstock : y.stock = st := hps.2
        rw [if_pos hyi]
        show 0 ≤ y.stock - q
        omega
      · rw [if_neg hyi]
        exact hnn.2 y hy

/-- A quantity-1 attempt against exhausted stock fails with
insufficient stock. -/
theorem BuyItem_one_stockout (s : State) (u i : Int) (p : ℚ) (st : Int)
    (hitem : GetItemForUpdate s i = some (p, st)) (hst : st < 1) :
    (BuyItem noFaults s u i 1).1 = .error .insufficientStock := by
  rw [BuyItem_noFaults_eval s u i 1 (by omega)]
  unfold specProtocolOutcome
  simp only [hitem]
  rw [if_pos hst]

/-- A funded quantity-1 attempt against positive stock succeeds with
the three mutations. -/
theorem BuyItem_one_success (s : State) (u i : Int) (p b : ℚ) (st : Int)
    (hitem : GetItemForUpdate s i = some (p, st)) (hst : 1 ≤ st)
    (huser : GetUserForUpdate s u = some b) (hb : p ≤ b) :
    (BuyItem noFaults s u i 1).1 =
      .ok (CreateOrder (UpdateItemStock (UpdateUserBalance s u (p * ((1 : Int) : ℚ))) i 1)
        u i (p * ((1 : Int) : ℚ)) 1) := by
  rw [BuyItem_noFaults_eval s u i 1 (by omega)]
  unfold specProtocolOutcome
  simp only [hitem, huser]
  rw [if_neg (by omega : ¬ st < 1),
      if_neg (show ¬ b < p * ((1 : Int) : ℚ) by
        rw [Int.cast_one, mul_one]
        exact not_lt.mpr hb)]

/-- Draining induction: running quantity-1 attempts by funded accounts
against an item with stock `st` yields `min (number of attempts)
(st.toNat)` successes, insufficient-stock failures for all the rest,
and leaves stock `st` minus the successes. -/
theorem runBuys_drain (i : Int) (p : ℚ) (hp : 0 ≤ p) :
    ∀ (us : List Int) (s : State) (st : Int),
      GetItemForUpdate s i = some (p, st) → 0 ≤ st →
      (∀ u ∈ us, ∃ b, GetUserForUpdate s u = some b ∧ p * (us.count u : ℚ) ≤ b) →
      (runBuys s (us.map fun u => (u, i, 1))).2.countP (fun x => x = none) =
          min us.length st.toNat ∧
      (runBuys s (us.map fun u => (u, i, 1))).2.countP
          (fun x => x = some Err.insufficientStock) =
          us.length - min us.length st.toNat ∧
      GetItemForUpdate (runBuys s (us.map fun u => (u, i, 1))).1 i =
          some (p, st - min us.length st.toNat)
  | [], s, st => by
    intro hitem hst _
    refine ⟨by simp [runBuys], by simp [runBuys], ?_⟩
    simp [runBuys, hitem]
  | u :: us', s, st => by
    intro hitem hst hfunds
    obtain ⟨b, hub, hble⟩ := hfunds u (List.mem_cons_self u us')
    have hcount1 : 1 ≤ (u :: us').count u := by
      simp [List.count_cons]
    have hbp : p ≤ b := by
      calc p = p * 1 := (mul_one p).symm
        _ ≤ p * ((u :: us').count u : ℚ) := by
            apply mul_le_mul_of_nonneg_left _ hp
            exact_mod_cast hcount1
        _ ≤ b := hble
    by_cases hst1 : st < 1
    · have hres := BuyItem_one_stockout s u i p st hitem hst1
      have hfunds' : ∀ v ∈ us', ∃ b', GetUserForUpdate s v = some b' ∧
          p * (us'.count v : ℚ) ≤ b' := by
        intro v hv
        obtain ⟨b', hvb, hvle⟩ := hfunds v (List.mem_cons_of_mem u hv)
        refine ⟨b', hvb, le_trans ?_ hvle⟩
        apply mul_le_mul_of_nonneg_left _ hp
        have hcc : us'.count v ≤ (u :: us').count v := by
          rw [List.count_cons]
          split <;> omega
        exact_mod_cast hcc
      obtain ⟨ih1, ih2, ih3⟩ := runBuys_drain i p hp us' s st hitem hst hfunds'
      have hst0 : st = 0 := by omega
      subst hst0
      simp only [Int.toNat_zero, Nat.min_zero] at ih1 ih2 ih3 ⊢
      simp only [List.map_cons, runBuys_cons, hres]
      refine ⟨?_, ?_, ?_⟩
      · simpa [List.countP_cons] using ih1
      · simp only [List.countP_cons]
        simp only [ih2]
        simp
      · simpa using ih3
    · have hsucc := BuyItem_one_success s u i p b st hitem (by omega) hub hbp
      have hitem' : GetItemForUpdate (CreateOrder (UpdateItemStock
          (UpdateUserBalance s u (p * ((1 : Int) : ℚ))) i 1) u i (p * ((1 : Int) : ℚ)) 1) i =
          some (p, st - 1) := by
        rw [GetItemForUpdate_CreateOrder, GetItemForUpdate_UpdateItemStock, if_pos rfl,
            GetItemForUpdate_UpdateUserBalance, hitem]
        rfl
      have hfunds' : ∀ v ∈ us', ∃ b', GetUserForUpdate (CreateOrder (UpdateItemStock
          (UpdateUserBalance s u (p * ((1 : Int) : ℚ))) i 1) u i (p * ((1 : Int) : ℚ)) 1) v =
          some b' ∧ p * (us'.count v : ℚ) ≤ b' := by
        intro v hv
        by_cases hvu : v = u
        · subst hvu
          refine ⟨b - p * ((1 : Int) : ℚ), ?_, ?_⟩
          · rw [GetUserForUpdate_CreateOrder, GetUserForUpdate_UpdateItemStock,
                GetUserForUpdate_UpdateUserBalance, if_pos rfl, hub]
            rfl
          · have hc : (v :: us').count v = us'.count v + 1 := by
              simp [List.count_cons]
            rw [hc] at hble
            push_cast at hble ⊢
            linarith
        · obtain ⟨b', hvb, hvle⟩ := hfunds v (List.mem_cons_of_mem u hv)
          refine ⟨b', ?_, ?_⟩
          · rw [GetUserForUpdate_CreateOrder, GetUserForUpdate_UpdateItemStock,
                GetUserForUpdate_UpdateUserBalance, if_neg hvu, hvb]
          · have hc : (u :: us').count v = us'.count v := by
              simp [List.count_cons, hvu]
            rw [hc] at hvle
            exact hvle
      obtain ⟨ih1, ih2, ih3⟩ :=
        runBuys_drain i p hp us' _ (st - 1) hitem' (by omega) hfunds'
      simp only [List.map_cons, runBuys_cons, hsucc]
      refine ⟨?_, ?_, ?_⟩
      · simp only [List.countP_cons, ih1]
        simp only [List.length_cons]
        have h1 : (1 ≤ st) := by omega
        simp
        omega
      · simp only [List.countP_cons, ih2]
        simp only [List.length_cons]
        simp
        omega
      · simp only [ih3]
        simp only [List.length_cons, Option.some.injEq, Prod.mk.injEq, true_and]
        omega

end Shop

namespace skinport

/-- Rebuilding the map over the tradable list: with distinct names,
the map afterwards holds the tradable entry for each tradable name and
is otherwise untouched. -/
theorem foldl_insTradable_apply (t : List RawItem) (m0 : String → Option ResponseItem)
    (n : String) (hnd : (t.map RawItem.marketHashName).Nodup) :
    (t.foldl insTradable m0) n =
      match t.find? (fun a => a.marketHashName = n) with
      | some a => some ⟨a.marketHashName, a.currency, a.slug, a.minPrice, none, a.quantity⟩
      | none => m0 n := by
  induction t generalizing m0 with
  | nil => simp
  | cons a as ih =>
    have hnd' : (∀ y ∈ as, ¬ y.marketHashName = a.marketHashName) ∧
        (as.map RawItem.marketHashName).Nodup := by
      simpa using hnd
    rw [List.foldl_cons, List.find?_cons]
    by_cases hna : a.marketHashName = n
    · have hd : decide (a.marketHashName = n) = true := by simp [hna]
      rw [hd]
      rw [ih _ hnd'.2]
      have hfn : as.find? (fun y => y.marketHashName = n) = none := by
        apply List.find?_eq_none.mpr
        intro y hy
        simp only [decide_eq_true_eq]
        exact fun hEq => hnd'.1 y hy (hEq.trans hna.symm)
      rw [hfn]
      unfold insTradable
      rw [if_pos hna.symm]
    · have hd : decide (a.marketHashName = n) = false := by simp [hna]
      rw [hd]
      rw [ih _ hnd'.2]
      cases hf : as.find? (fun y => y.marketHashName = n) with
      | some x => rfl
      | none =>
        unfold insTradable
        rw [if_neg (fun hEq => hna hEq.symm)]

/-- `insNonTradable` leaves every other name's entry unchanged. -/
theorem insNonTradable_other (m : String → Option ResponseItem) (b : RawItem)
    (n : String) (hn : n ≠ b.marketHashName) :
    insNonTradable m b n = m n := by
  unfold insNonTradable
  cases m b.marketHashName <;> simp [hn]

/-- Folding the non-tradable list over an arbitrary map: with distinct
non-tradable names, each non-tradable name's entry is merged into (or
freshly inserted in) the map, and every other name is untouched. -/
theorem foldl_insNonTradable_apply (nt : List RawItem)
    (m : String → Option ResponseItem) (n : String)
    (hnd : (nt.map RawItem.marketHashName).Nodup) :
    (nt.foldl insNonTradable m) n =
      match nt.find? (fun b => b.marketHashName = n) with
      | some b =>
        match m n with
        | some ex => some { ex with minPriceNonTradable := b.minPrice,
                                    quantity := ex.quantity + b.quantity }
        | none => some ⟨b.marketHashName, b.currency, b.slug, none, b.minPrice, b.quantity⟩
      | none => m n := by
  induction nt generalizing m with
  | nil => simp
  | cons b bs ih =>
    have hnd' : (∀ y ∈ bs, ¬ y.marketHashName = b.marketHashName) ∧
        (bs.map RawItem.marketHashName).Nodup := by
      simpa using hnd
    rw [List.foldl_cons, List.find?_cons]
    by_cases hnb : b.marketHashName = n
    · have hd : decide (b.marketHashName = n) = true := by simp [hnb]
      rw [hd]
      rw [ih _ hnd'.2]
      have hfn : bs.find? (fun y => y.marketHashName = n) = none := by
        apply List.find?_eq_none.mpr
        intro y hy
        simp only [decide_eq_true_eq]
        exact fun hEq => hnd'.1 y hy (hEq.trans hnb.symm)
      rw [hfn]
      unfold insNonTradable
      subst hnb
      cases m b.marketHashName <;> simp
    · have hd : decide (b.marketHashName = n) = false := by simp [hnb]
      rw [hd]
      rw [ih _ hnd'.2]
      rw [insNonTradable_other m b n (fun hEq => hnb hEq.symm)]

end skinport

open Shop handler skinport

/-- Claim C1: every successful `BuyItem(accountId, itemId, quantity)`
call, with `p` the stored price read at lock time, decreases the
account's balance by exactly `p * quantity`, decreases the item's
stock by exactly `quantity`, and appends exactly one order record
referencing that account and item with price `p * quantity` and that
quantity; every other account and item reads unchanged and no other
order row changes. -/
theorem C1_success_effects (f : Faults) (s : State) (u i q : Int) (s' : State)
    (h : (BuyItem f s u i q).1 = .ok s') :
    ∃ p st, GetItemForUpdate s i = some (p, st) ∧
      GetUserForUpdate s' u = (GetUserForUpdate s u).map (fun b => b - p * (q : ℚ)) ∧
      (∀ a, a ≠ u → GetUserForUpdate s' a = GetUserForUpdate s a) ∧
      GetItemForUpdate s' i = some (p, st - q) ∧
      (∀ j, j ≠ i → GetItemForUpdate s' j = GetItemForUpdate s j) ∧
      s'.orders = s.orders ++ [⟨u, i, p * (q : ℚ), q⟩] := by
  obtain ⟨hq, p, st, b, h1, h2, h3, h4, h5⟩ := BuyItem_ok_elim h
  subst h5
  refine ⟨p, st, h1, ?_, ?_, ?_, ?_, ?_⟩
  · rw [GetUserForUpdate_CreateOrder, GetUserForUpdate_UpdateItemStock,
        GetUserForUpdate_UpdateUserBalance, if_pos rfl]
  · intro a ha
    rw [GetUserForUpdate_CreateOrder, GetUserForUpdate_UpdateItemStock,
        GetUserForUpdate_UpdateUserBalance, if_neg ha]
  · rw [GetItemForUpdate_CreateOrder, GetItemForUpdate_UpdateItemStock, if_pos rfl,
        GetItemForUpdate_UpdateUserBalance, h1]
    rfl
  · intro j hj
    rw [GetItemForUpdate_CreateOrder, GetItemForUpdate_UpdateItemStock, if_neg hj,
        GetItemForUpdate_UpdateUserBalance]
  · rw [CreateOrder_orders, UpdateItemStock_orders, UpdateUserBalance_orders]

/-- Witness for C1 at the spec's worked example: buying quantity 3 at
price 10.00 from balance 100.00 and stock 5. -/
theorem C1_success_effects_witness :
    ∃ p st, GetItemForUpdate sampleState 1 = some (p, st) ∧
      GetUserForUpdate ⟨[⟨1, 70⟩], [⟨1, 10, 2⟩], [⟨1, 1, 30, 3⟩]⟩ 1 =
        (GetUserForUpdate sampleState 1).map (fun b => b - p * ((3 : Int) : ℚ)) ∧
      (∀ a, a ≠ (1 : Int) →
        GetUserForUpdate ⟨[⟨1, 70⟩], [⟨1, 10, 2⟩], [⟨1, 1, 30, 3⟩]⟩ a =
          GetUserForUpdate sampleState a) ∧
      GetItemForUpdate ⟨[⟨1, 70⟩], [⟨1, 10, 2⟩], [⟨1, 1, 30, 3⟩]⟩ 1 = some (p, st - 3) ∧
      (∀ j, j ≠ (1 : Int) →
        GetItemForUpdate ⟨[⟨1, 70⟩], [⟨1, 10, 2⟩], [⟨1, 1, 30, 3⟩]⟩ j =
          GetItemForUpdate sampleState j) ∧
      (⟨[⟨1, 70⟩], [⟨1, 10, 2⟩], [⟨1, 1, 30, 3⟩]⟩ : State).orders =
        sampleState.orders ++ [⟨1, 1, p * ((3 : Int) : ℚ), 3⟩] :=
  C1_success_effects noFaults sampleState 1 1 3 ⟨[⟨1, 70⟩], [⟨1, 10, 2⟩], [⟨1, 1, 30, 3⟩]⟩
    (by norm_num [BuyItem, BuyItemTx, RunAtomic, noFaults, sampleState, GetItemForUpdate,
      GetUserForUpdate, UpdateUserBalance, UpdateItemStock, CreateOrder, List.find?])

/-- Claim C3: every failing `BuyItem` call (invalid quantity, item not
found, insufficient stock, user not found, insufficient funds, or a
storage fault at any step up to and including commit) leaves every
account balance, every item stock, and the order list exactly as they
were: the transaction rolls back with no partial effect. -/
theorem C3_failure_rolls_back (f : Faults) (s : State) (u i q : Int) (e : Err)
    (h : (BuyItem f s u i q).1 = .error e) :
    buyExec f s u i q = s ∧
    (∀ a, GetUserForUpdate (buyExec f s u i q) a = GetUserForUpdate s a) ∧
    (∀ j, GetItemForUpdate (buyExec f s u i q) j = GetItemForUpdate s j) ∧
    (buyExec f s u i q).orders = s.orders := by
  have hb : buyExec f s u i q = s := by
    unfold buyExec
    rw [h]
  exact ⟨hb, fun a => by rw [hb], fun j => by rw [hb], by rw [hb]⟩

/-- Witness for C3: a buy of quantity 6 against stock 5 fails with
insufficient stock and commits nothing. -/
theorem C3_failure_rolls_back_witness :
    buyExec noFaults sampleState 1 1 6 = sampleState ∧
    (∀ a, GetUserForUpdate (buyExec noFaults sampleState 1 1 6) a =
      GetUserForUpdate sampleState a) ∧
    (∀ j, GetItemForUpdate (buyExec noFaults sampleState 1 1 6) j =
      GetItemForUpdate sampleState j) ∧
    (buyExec noFaults sampleState 1 1 6).orders = sampleState.orders :=
  C3_failure_rolls_back noFaults sampleState 1 1 6 .insufficientStock rfl

/-- Claim C4, checked at the failing input (status: the code
contradicts the claim): the service computes `totalPrice := price *
float64(quantity)` in binary64 floating point, so for the stored
price 0.10 and quantity 3 the charged total is not the exact product
`price * 3`; indeed the decimal price 0.10 itself is not even
binary64-representable. -/
theorem C4_float64_total_not_exact :
    (totalPriceF64 price010 3).toRat ≠ price010.toRat * 3 ∧
    price010.toRat ≠ (1 : ℚ) / 10 := by
  have h : totalPriceF64 price010 3 = ⟨5404319552844596, -54⟩ := by decide
  have h54 : Int.toNat 54 = 54 := rfl
  have h55 : Int.toNat 55 = 55 := rfl
  constructor
  · rw [h]
    norm_num [F64.toRat, price010]
    rw [h54, h55]
    norm_num
  · norm_num [F64.toRat, price010]
    rw [h55]
    norm_num

/-- Claim C5: for positive quantity the protocol always interacts with
the store in the fixed canonical order (the trace is a prefix of
begin, lock item, lock user, write balance, write stock, insert order,
commit — so the catalog lock always precedes the account lock), and
with a fault-free store the outcome is exactly that of the spec's
step-ordered protocol, returning the earliest failing step's
failure. -/
theorem C5_protocol_order (f : Faults) (s : State) (u i q : Int) (hq : 0 < q) :
    (∃ rest, (BuyItem f s u i q).2 ++ rest = canonicalTrace u i) ∧
    (BuyItem noFaults s u i q).1 = specProtocolOutcome s u i q :=
  ⟨BuyItem_trace f s u i q, BuyItem_noFaults_eval s u i q hq⟩

/-- Witness for C5 at quantity 3 on the worked example state. -/
theorem C5_protocol_order_witness :
    (0 : Int) < 3 ∧
    ((∃ rest, (BuyItem noFaults sampleState 1 1 3).2 ++ rest = canonicalTrace 1 1) ∧
     (BuyItem noFaults sampleState 1 1 3).1 = specProtocolOutcome sampleState 1 1 3) :=
  ⟨by decide, C5_protocol_order noFaults sampleState 1 1 3 (by decide)⟩

/-- Claim C6: for quantity ≤ 0 `BuyItem` fails immediately with the
invalid-quantity failure, with no store interaction at all (no
transaction begun, no lock, no read, no write) and no state change. -/
theorem C6_nonpositive_quantity_fail_fast (f : Faults) (s : State) (u i q : Int)
    (hq : q ≤ 0) :
    (BuyItem f s u i q).1 = .error .invalidQuantity ∧
    (BuyItem f s u i q).2 = [] ∧
    buyExec f s u i q = s := by
  have h1 : BuyItem f s u i q = (.error .invalidQuantity, []) := by
    unfold BuyItem
    rw [if_pos hq]
  refine ⟨by rw [h1], by rw [h1], ?_⟩
  unfold buyExec
  rw [h1]

/-- Witness for C6 at quantity 0. -/
theorem C6_nonpositive_quantity_fail_fast_witness :
    (BuyItem noFaults sampleState 1 1 0).1 = .error .invalidQuantity ∧
    (BuyItem noFaults sampleState 1 1 0).2 = [] ∧
    buyExec noFaults sampleState 1 1 0 = sampleState :=
  C6_nonpositive_quantity_fail_fast noFaults sampleState 1 1 0 (by decide)

/-- Claim C7: a successfully decoded purchase request whose `count`
field is omitted (decoding to 0), zero, or negative is passed to the
service with quantity 1: the gateway treats it as buying one unit
rather than rejecting it. -/
theorem C7_default_quantity_one (f : Faults) (s : State) (uId iId c : Int)
    (hc : c ≤ 0) :
    handlerQuantity c = 1 ∧
    HandlerBuyItem f s ⟨uId, iId, c⟩ = BuyItem f s uId iId 1 := by
  have h1 : handlerQuantity c = 1 := by
    unfold handlerQuantity
    rw [if_pos hc]
  refine ⟨h1, ?_⟩
  unfold HandlerBuyItem
  rw [show handlerQuantity (⟨uId, iId, c⟩ : BuyRequest).count = 1 from h1]

/-- Witness for C7 with the `count` field omitted (decoded as 0). -/
theorem C7_default_quantity_one_witness :
    handlerQuantity 0 = 1 ∧
    HandlerBuyItem noFaults sampleState ⟨1, 1, 0⟩ = BuyItem noFaults sampleState 1 1 1 :=
  C7_default_quantity_one noFaults sampleState 1 1 0 (by decide)

/-- Claim C10: through the gateway the engine's invalid-quantity
branch is unreachable: whatever the decoded request, the quantity
passed down is at least 1, so the handler never surfaces the
quantity-must-be-positive failure. -/
theorem C10_invalid_quantity_unreachable (f : Faults) (s : State) (req : BuyRequest) :
    1 ≤ handlerQuantity req.count ∧
    (HandlerBuyItem f s req).1 ≠ .error .invalidQuantity := by
  have hq : 1 ≤ handlerQuantity req.count := by
    unfold handlerQuantity
    split <;> omega
  exact ⟨hq, BuyItem_pos_no_invalidQuantity f s req.user_id req.item_id _ (by omega)⟩

/-- Claim C2: starting from a committed state with unique row ids in
which every balance and every stock is non-negative, any sequence of
`BuyItem` calls — each succeeding or failing, with arbitrary storage
faults — leaves every committed balance and stock non-negative. -/
theorem C2_nonneg_invariant (s : State) (ops : List (Faults × Int × Int × Int))
    (hwf : WF s) (hnn : Nonneg s) : Nonneg (runOps s ops) := by
  induction ops generalizing s with
  | nil => exact hnn
  | cons op rest ih =>
    rw [show runOps s (op :: rest) =
      runOps (buyExec op.1 s op.2.1 op.2.2.1 op.2.2.2) rest from rfl]
    exact ih _ (WF_buyExec op.1 s op.2.1 op.2.2.1 op.2.2.2 hwf)
      (Nonneg_buyExec op.1 s op.2.1 op.2.2.1 op.2.2.2 hwf hnn)

/-- Claim C9: merging a pair of fetched lists (tradable,
non-tradable) with distinct `market_hash_name`s within each list
yields exactly one entry per name occurring in either list (the map is
keyed by name, and the returned slice lists its entries): a name
absent from both has no entry; a name present only in the tradable
list keeps its tradable `min_price` with a nil non-tradable price; a
name present only in the non-tradable list keeps its non-tradable
`min_price` with a nil tradable price; a name present in both gets
the tradable list's `min_price` as `MinPriceTradable`, the
non-tradable list's as `MinPriceNonTradable`, and the sum of the two
quantities. -/
theorem C9_merge_by_name (t nt : List RawItem)
    (ht : (t.map RawItem.marketHashName).Nodup)
    (hnt : (nt.map RawItem.marketHashName).Nodup) :
    (∀ n, (∀ a ∈ t, a.marketHashName ≠ n) → (∀ b ∈ nt, b.marketHashName ≠ n) →
      itemMapOf t nt n = none) ∧
    (∀ a ∈ t, (∀ b ∈ nt, b.marketHashName ≠ a.marketHashName) →
      itemMapOf t nt a.marketHashName =
        some ⟨a.marketHashName, a.currency, a.slug, a.minPrice, none, a.quantity⟩) ∧
    (∀ b ∈ nt, (∀ a ∈ t, a.marketHashName ≠ b.marketHashName) →
      itemMapOf t nt b.marketHashName =
        some ⟨b.marketHashName, b.currency, b.slug, none, b.minPrice, b.quantity⟩) ∧
    (∀ a ∈ t, ∀ b ∈ nt, b.marketHashName = a.marketHashName →
      itemMapOf t nt a.marketHashName =
        some ⟨a.marketHashName, a.currency, a.slug, a.minPrice, b.minPrice,
              a.quantity + b.quantity⟩) := by
  refine ⟨?_, ?_, ?_, ?_⟩
  · intro n hta hntb
    have hfnt : nt.find? (fun y => y.marketHashName = n) = none :=
      List.find?_eq_none.mpr (fun y hy => by
        simp only [decide_eq_true_eq]
        exact hntb y hy)
    have hft : t.find? (fun y => y.marketHashName = n) = none :=
      List.find?_eq_none.mpr (fun y hy => by
        simp only [decide_eq_true_eq]
        exact hta y hy)
    calc itemMapOf t nt n = (t.foldl insTradable (fun _ => none)) n := by
          unfold itemMapOf
          rw [foldl_insNonTradable_apply nt _ n hnt, hfnt]
      _ = none := by
          rw [foldl_insTradable_apply t _ n ht, hft]
  · intro a ha hbn
    have hfnt : nt.find? (fun y => y.marketHashName = a.marketHashName) = none :=
      List.find?_eq_none.mpr (fun y hy => by
        simp only [decide_eq_true_eq]
        exact hbn y hy)
    calc itemMapOf t nt a.marketHashName =
        (t.foldl insTradable (fun _ => none)) a.marketHashName := by
          unfold itemMapOf
          rw [foldl_insNonTradable_apply nt _ _ hnt, hfnt]
      _ = some ⟨a.marketHashName, a.currency, a.slug, a.minPrice, none, a.quantity⟩ := by
          rw [foldl_insTradable_apply t _ _ ht,
              Shop.find?_mem_of_nodup RawItem.marketHashName t ht a ha _ rfl]
  · intro b hb hta
    have hfnt : nt.find? (fun y => y.marketHashName = b.marketHashName) = some b :=
      Shop.find?_mem_of_nodup RawItem.marketHashName nt hnt b hb _ rfl
    have hft : t.find? (fun y => y.marketHashName = b.marketHashName) = none :=
      List.find?_eq_none.mpr (fun y hy => by
        simp only [decide_eq_true_eq]
        exact hta y hy)
    unfold itemMapOf
    rw [foldl_insNonTradable_apply nt _ _ hnt, hfnt,
        foldl_insTradable_apply t _ _ ht, hft]
  · intro a ha b hb hba
    have hfnt : nt.find? (fun y => y.marketHashName = a.marketHashName) = some b :=
      Shop.find?_mem_of_nodup RawItem.marketHashName nt hnt b hb _ hba
    unfold itemMapOf
    rw [foldl_insNonTradable_apply nt _ _ hnt, hfnt,
        foldl_insTradable_apply t _ _ ht,
        Shop.find?_mem_of_nodup RawItem.marketHashName t ht a ha _ rfl]

/-- Witness for C9 on the repository's own client-test data: "Item A"
in both lists (prices 10.5 and 9, quantities 5 and 2), "Item B" only
tradable, "Item C" only non-tradable. -/
theorem C9_merge_by_name_witness :
    (∀ n, (∀ a ∈ sampleTradable, a.marketHashName ≠ n) →
      (∀ b ∈ sampleNonTradable, b.marketHashName ≠ n) →
      itemMapOf sampleTradable sampleNonTradable n = none) ∧
    (∀ a ∈ sampleTradable, (∀ b ∈ sampleNonTradable,
        b.marketHashName ≠ a.marketHashName) →
      itemMapOf sampleTradable sampleNonTradable a.marketHashName =
        some ⟨a.marketHashName, a.currency, a.slug, a.minPrice, none, a.quantity⟩) ∧
    (∀ b ∈ sampleNonTradable, (∀ a ∈ sampleTradable,
        a.marketHashName ≠ b.marketHashName) →
      itemMapOf sampleTradable sampleNonTradable b.marketHashName =
        some ⟨b.marketHashName, b.currency, b.slug, none, b.minPrice, b.quantity⟩) ∧
    (∀ a ∈ sampleTradable, ∀ b ∈ sampleNonTradable,
        b.marketHashName = a.marketHashName →
      itemMapOf sampleTradable sampleNonTradable a.marketHashName =
        some ⟨a.marketHashName, a.currency, a.slug, a.minPrice, b.minPrice,
              a.quantity + b.quantity⟩) :=
  C9_merge_by_name sampleTradable sampleNonTradable (by decide) (by decide)

/-- Claim C8: for an item with stock `N` and `M > N` quantity-1
purchase attempts against it, each by an account with funds for all
its own attempts, exactly `N` attempts succeed, the other `M - N`
fail with insufficient stock, and the final committed stock is 0.
Concurrent attempts are serialized by the `FOR UPDATE` row locks, so
they are modelled as executing in an arbitrary order `us` of buyer
account ids. -/
theorem C8_scarcity_fairness (s : State) (i : Int) (p : ℚ) (N : Int) (us : List Int)
    (hp : 0 ≤ p) (hitem : GetItemForUpdate s i = some (p, N)) (hN : 0 ≤ N)
    (hM : N < (us.length : Int))
    (hfunds : ∀ u ∈ us, ∃ b, GetUserForUpdate s u = some b ∧
      p * (us.count u : ℚ) ≤ b) :
    (runBuys s (us.map fun u => (u, i, 1))).2.countP (fun x => x = none) = N.toNat ∧
    (runBuys s (us.map fun u => (u, i, 1))).2.countP
      (fun x => x = some Err.insufficientStock) = us.length - N.toNat ∧
    GetItemForUpdate (runBuys s (us.map fun u => (u, i, 1))).1 i = some (p, 0) := by
  obtain ⟨h1, h2, h3⟩ := runBuys_drain i p hp us s N hitem hN hfunds
  have hmin : min us.length N.toNat = N.toNat := by omega
  rw [hmin] at h1 h2 h3
  refine ⟨h1, h2, ?_⟩
  rw [h3]
  simp only [Option.some.injEq, Prod.mk.injEq, true_and]
  omega

/-- Witness for C8: stock 1, two funded buyers; one success, one
insufficient-stock failure, final stock 0. -/
theorem C8_scarcity_fairness_witness :
    (runBuys sampleState2 ([1, 2].map fun u => (u, 1, 1))).2.countP
        (fun x => x = none) = (1 : Int).toNat ∧
    (runBuys sampleState2 ([1, 2].map fun u => (u, 1, 1))).2.countP
        (fun x => x = some Err.insufficientStock) =
      ([1, 2] : List Int).length - (1 : Int).toNat ∧
    GetItemForUpdate (runBuys sampleState2 ([1, 2].map fun u => (u, 1, 1))).1 1 =
      some (10, 0) :=
  C8_scarcity_fairness sampleState2 1 10 1 [1, 2] (by decide) rfl (by decide) (by decide)
    (by
      intro u hu
      fin_cases hu
      · refine ⟨100, rfl, ?_⟩
        rw [show (([1, 2] : List Int).count 1) = 1 from rfl]
        norm_num
      · refine ⟨100, rfl, ?_⟩
        rw [show (([1, 2] : List Int).count 2) = 1 from rfl]
        norm_num)

/-- Witness for C2: a mixed sequence of succeeding and failing buys
(success, insufficient stock, invalid quantity, insufficient funds,
commit fault) starting from the worked example state. -/
theorem C2_nonneg_invariant_witness :
    Nonneg (runOps sampleState
      [(noFaults, 1, 1, 3), (noFaults, 1, 1, 6), (noFaults, 1, 1, 0),
       (noFaults, 1, 1, 999), (⟨false, false, false, false, false, false, true⟩, 1, 1, 1),
       (noFaults, 1, 1, 2)]) :=
  C2_nonneg_invariant sampleState _ (by decide) (by decide)
